import Mathlib

/-!
Verification of the noise subsystem of `ascanvas2d`: the seeded random
generator (cyrb128 + mulberry32), the Fisher-Yates permutation table,
3D simplex noise, and curl noise via central finite differences.

JavaScript 32-bit integer arithmetic is embedded as `Nat` kept below
`2 ^ 32`; JavaScript floating-point numbers are embedded as exact
rationals (`ℚ`), and the curl computation (which uses `Math.hypot`,
hence square roots) as exact reals (`ℝ`).
-/

namespace Ascanvas2d

/-- `2^32`, the modulus of all JavaScript 32-bit integer coercions. -/
def UINT32 : Nat := 4294967296

/-- `Math.imul`: 32-bit multiplication, as bits (unsigned residue mod `2^32`). -/
def imul (a b : Nat) : Nat := (a * b) % UINT32

/-- One character step of the cyrb128 hash: the four sequential
assignments of the loop body in `_createRandom`
(`h1 = h2 ^ imul(h1 ^ k, 597399067)` and so on; the new `h1` feeds the
`h4` update, as in the source's sequential assignments). -/
def cyrb128Step (h : Nat × Nat × Nat × Nat) (k : Nat) : Nat × Nat × Nat × Nat :=
  let h1 := h.1
  let h2 := h.2.1
  let h3 := h.2.2.1
  let h4 := h.2.2.2
  let h1n := Nat.xor h2 (imul (Nat.xor h1 k) 597399067)
  let h2n := Nat.xor h3 (imul (Nat.xor h2 k) 2869860233)
  let h3n := Nat.xor h4 (imul (Nat.xor h3 k) 951274213)
  let h4n := Nat.xor h1n (imul (Nat.xor h4 k) 2716044179)
  (h1n, h2n, h3n, h4n)

/-- The cyrb128 hash of a seed string (given as its list of UTF-16 char
codes), returning the first of the four 32-bit lanes — the only one
`_createRandom` uses (`cyrb128(seed)[0]`). -/
def cyrb128 (seed : List Nat) : Nat :=
  let h := seed.foldl cyrb128Step (1779033703, 3144134277, 1013904242, 2773480762)
  let h1 := imul (Nat.xor h.2.2.1 (h.1 >>> 18)) 597399067
  let h2 := imul (Nat.xor h.2.2.2 (h.2.1 >>> 22)) 2869860233
  let h3 := imul (Nat.xor h1 (h.2.2.1 >>> 17)) 951274213
  let h4 := imul (Nat.xor h2 (h.2.2.2 >>> 19)) 2716044179
  (Nat.xor (Nat.xor (Nat.xor h1 h2) h3) h4) % UINT32

/-- The mulberry32 accumulator after `n` increments: each draw begins with
`a += 0x6d2b79f5` (kept mod `2^32`, the residue the subsequent `ToUint32`
coercions observe). -/
def mulberryState (a0 : Nat) : Nat → Nat
  | 0 => a0 % UINT32
  | n + 1 => (mulberryState a0 n + 0x6d2b79f5) % UINT32

/-- The output scrambling of one mulberry32 draw from the freshly
incremented accumulator `t`:
`t = imul(t ^ (t >>> 15), t | 1); t ^= t + imul(t ^ (t >>> 7), t | 61);
return (t ^ (t >>> 14)) >>> 0`. -/
def mulberryOut (t : Nat) : Nat :=
  let t1 := imul (Nat.xor t (t >>> 15)) (t ||| 1)
  let t2 := Nat.xor t1 ((t1 + imul (Nat.xor t1 (t1 >>> 7)) (t1 ||| 61)) % UINT32)
  (Nat.xor t2 (t2 >>> 14)) % UINT32

/-- The `n`-th (0-based) value drawn by the generator `_createRandom(seed)`
for a non-empty seed: the mulberry32 stream seeded with `cyrb128(seed)[0]`,
each 32-bit output divided by `4294967296`. -/
def seededDraw (seed : List Nat) (n : Nat) : ℚ :=
  (mulberryOut (mulberryState (cyrb128 seed) (n + 1)) : ℚ) / 4294967296

/-- The two-argument mode of the function returned by `createRandom`:
`random(a, b) = r() * (b - a) + a`. -/
def seededDrawRange (seed : List Nat) (n : Nat) (a b : ℚ) : ℚ :=
  seededDraw seed n * (b - a) + a

theorem mulberryOut_lt (t : Nat) : mulberryOut t < UINT32 :=
  Nat.mod_lt _ (by decide)

/-- C1: two generators constructed with the same non-empty seed string
produce element-for-element identical sequences of zero-argument draws. -/
theorem claim1_seeded_determinism (s1 s2 : List Nat) (hne : s1 ≠ [])
    (heq : s1 = s2) (n : Nat) : seededDraw s1 n = seededDraw s2 n := by
  subst heq; rfl

theorem claim1_seeded_determinism_w :
    seededDraw [97, 98, 99] 0 = seededDraw [97, 98, 99] 0 :=
  claim1_seeded_determinism [97, 98, 99] [97, 98, 99] (by decide) rfl 0

/-- C6: for every non-empty seed every zero-argument draw lies in `[0, 1)`,
and every two-argument call `next(a, b)` with `a < b` returns a value in
`[a, b)`. -/
theorem claim6_draw_range (seed : List Nat) (hne : seed ≠ []) (n : Nat) :
    (0 ≤ seededDraw seed n ∧ seededDraw seed n < 1) ∧
    ∀ a b : ℚ, a < b →
      a ≤ seededDrawRange seed n a b ∧ seededDrawRange seed n a b < b := by
  have hout := mulberryOut_lt (mulberryState (cyrb128 seed) (n + 1))
  have houtQ : (mulberryOut (mulberryState (cyrb128 seed) (n + 1)) : ℚ) <
      4294967296 := by
    have : (mulberryOut (mulberryState (cyrb128 seed) (n + 1)) : ℚ) <
        (UINT32 : ℚ) := by exact_mod_cast hout
    simpa [UINT32] using this
  have h0 : 0 ≤ seededDraw seed n := by
    unfold seededDraw
    positivity
  have h1 : seededDraw seed n < 1 := by
    unfold seededDraw
    rw [div_lt_one (by norm_num)]
    exact houtQ
  refine ⟨⟨h0, h1⟩, fun a b hab => ?_⟩
  have hba : 0 < b - a := sub_pos.mpr hab
  constructor
  · have := mul_nonneg h0 hba.le
    unfold seededDrawRange
    linarith
  · have := mul_lt_mul_of_pos_right h1 hba
    rw [one_mul] at this
    unfold seededDrawRange
    linarith

theorem claim6_draw_range_w :
    (0 ≤ seededDraw [97] 0 ∧ seededDraw [97] 0 < 1) ∧
    (0 ≤ seededDrawRange [97] 0 0 1 ∧ seededDrawRange [97] 0 0 1 < 1) :=
  ⟨(claim6_draw_range [97] (by decide) 0).1,
   (claim6_draw_range [97] (by decide) 0).2 0 1 (by norm_num)⟩

/-! ## Permutation table (`buildPermutationTable`) -/

/-- JavaScript `~~x`: truncation toward zero. -/
def jsTrunc (q : ℚ) : ℤ := if 0 ≤ q then ⌊q⌋ else ⌈q⌉

/-- A single point update of a table modelled as a function,
`p[i] = v`. -/
def fupdate (p : Nat → Nat) (i v : Nat) : Nat → Nat :=
  fun j => if j = i then v else p j

/-- The swap target drawn at loop index `i`:
`r = i + ~~(random() * (256 - i))`, with the `i`-th draw of the stream.
(The `toNat` clamp is only reached for draws outside `[0, 1)`.) -/
def swapR (random : Nat → ℚ) (i : Nat) : Nat :=
  ((i : ℤ) + jsTrunc (random i * (256 - (i : ℚ)))).toNat

/-- One iteration of the shuffle loop:
`aux = p[i]; p[i] = p[r]; p[r] = aux`. -/
def swapStep (random : Nat → ℚ) (i : Nat) (p : Nat → Nat) : Nat → Nat :=
  let r := swapR random i
  let aux := p i
  fupdate (fupdate p i (p r)) r aux

/-- The table after the first `n` iterations of the shuffle loop, starting
from the state left by the initialization loop (`p[i] = i` for
`i < tableSize / 2`, the rest still zero). -/
def permLoop (random : Nat → ℚ) : Nat → (Nat → Nat)
  | 0 => fun i => if i < 256 then i else 0
  | n + 1 => swapStep random n (permLoop random n)

/-- `buildPermutationTable`: identity initialization of entries 0–255,
`tableSize / 2 - 1 = 255` shuffle iterations, then the copy loop
`p[i] = p[i - 256]` for `256 ≤ i < 512`.  Reads outside the
`Uint8Array` are modelled as 0. -/
def buildPermutationTable (random : Nat → ℚ) : Nat → Nat :=
  fun idx =>
    if idx < 256 then permLoop random 255 idx
    else if idx < 512 then permLoop random 255 (idx - 256)
    else 0

/-- Entries 0–255 of `p` are a permutation of `{0, ..., 255}`: values in
range, injective there, and every value attained. -/
def PermOn (p : Nat → Nat) : Prop :=
  (∀ i, i < 256 → p i < 256) ∧
  (∀ i j, i < 256 → j < 256 → p i = p j → i = j) ∧
  (∀ v, v < 256 → ∃ i, i < 256 ∧ p i = v)

/-- The full table invariant: entries 0–255 a permutation of
`{0, ..., 255}`, entries 256–511 mirroring entries 0–255. -/
def permInvariant (p : Nat → Nat) : Prop :=
  PermOn p ∧ ∀ i, 256 ≤ i → i < 512 → p i = p (i - 256)

theorem swapStep_eq (random : Nat → ℚ) (i : Nat) (p : Nat → Nat) (j : Nat) :
    swapStep random i p j = p (Equiv.swap i (swapR random i) j) := by
  simp only [swapStep, fupdate, Equiv.swap_apply_def]
  split_ifs <;> first
    | rfl
    | exact congrArg p (by omega)

theorem swap_lt (i r j : Nat) (hi : i < 256) (hr : r < 256) (hj : j < 256) :
    Equiv.swap i r j < 256 := by
  rw [Equiv.swap_apply_def]
  split_ifs <;> assumption

theorem PermOn.comp_swap {p : Nat → Nat} (hp : PermOn p) {i r : Nat}
    (hi : i < 256) (hr : r < 256) :
    PermOn (fun j => p (Equiv.swap i r j)) := by
  obtain ⟨hv, hinj, hsurj⟩ := hp
  refine ⟨fun j hj => hv _ (swap_lt i r j hi hr hj),
    fun j1 j2 hj1 hj2 heq => ?_, fun v hvv => ?_⟩
  · have := hinj _ _ (swap_lt i r j1 hi hr hj1) (swap_lt i r j2 hi hr hj2) heq
    exact (Equiv.swap i r).injective this
  · obtain ⟨a, ha, hpa⟩ := hsurj v hvv
    exact ⟨Equiv.swap i r a, swap_lt i r a hi hr ha, by
      simpa [Equiv.swap_apply_self] using hpa⟩

theorem swapR_lt (random : Nat → ℚ) (h : ∀ n, 0 ≤ random n ∧ random n < 1)
    (i : Nat) (hi : i < 255) : swapR random i < 256 := by
  have hpos : (0 : ℚ) < 256 - (i : ℚ) := by
    have : (i : ℚ) ≤ 254 := by exact_mod_cast Nat.lt_succ_iff.mp hi
    linarith
  have hq0 : 0 ≤ random i * (256 - (i : ℚ)) := mul_nonneg (h i).1 hpos.le
  have hqlt : random i * (256 - (i : ℚ)) < 256 - (i : ℚ) := by
    have := mul_lt_mul_of_pos_right (h i).2 hpos
    simpa using this
  have hfl0 : 0 ≤ ⌊random i * (256 - (i : ℚ))⌋ := Int.floor_nonneg.mpr hq0
  have hflt : ⌊random i * (256 - (i : ℚ))⌋ < 256 - (i : ℤ) := by
    rw [Int.floor_lt]
    push_cast
    exact hqlt
  unfold swapR jsTrunc
  rw [if_pos hq0]
  omega

theorem permLoop_PermOn (random : Nat → ℚ)
    (h : ∀ n, 0 ≤ random n ∧ random n < 1) :
    ∀ n, n ≤ 255 → PermOn (permLoop random n) := by
  intro n
  induction n with
  | zero =>
    intro _
    refine ⟨fun i hi => by simp [permLoop, hi],
      fun i j hi hj heq => ?_, fun v hv => ⟨v, hv, by simp [permLoop, hv]⟩⟩
    simpa [permLoop, hi, hj] using heq
  | succ n ih =>
    intro hn
    have hn' : n < 255 := hn
    have heq : permLoop random (n + 1) =
        fun j => permLoop random n (Equiv.swap n (swapR random n) j) :=
      funext fun j => swapStep_eq random n (permLoop random n) j
    rw [heq]
    exact (ih hn'.le).comp_swap (by omega) (swapR_lt random h n hn')

/-- C2: for every draw function with outputs in `[0, 1)`, the table built
by `buildPermutationTable` has entries 0–255 forming a permutation of
`{0, ..., 255}` and entries 256–511 equal to entries 0–255 pairwise. -/
theorem claim2_perm_table_invariant (random : Nat → ℚ)
    (h : ∀ n, 0 ≤ random n ∧ random n < 1) :
    permInvariant (buildPermutationTable random) := by
  obtain ⟨hv, hinj, hsurj⟩ := permLoop_PermOn random h 255 le_rfl
  constructor
  · refine ⟨fun i hi => ?_, fun i j hi hj heq => ?_, fun v hvv => ?_⟩
    · simpa [buildPermutationTable, hi] using hv i hi
    · exact hinj i j hi hj (by
        simpa [buildPermutationTable, hi, hj] using heq)
    · obtain ⟨i, hi, hpi⟩ := hsurj v hvv
      exact ⟨i, hi, by simpa [buildPermutationTable, hi] using hpi⟩
  · intro i h1 h2
    have hn : ¬ i < 256 := by omega
    have hs : i - 256 < 256 := by omega
    simp [buildPermutationTable, hn, h2, hs]

theorem claim2_perm_table_invariant_w :
    permInvariant (buildPermutationTable fun _ => 0) :=
  claim2_perm_table_invariant _ (fun _ => ⟨le_rfl, by norm_num⟩)

/-! Spec-side description of the permutation-table construction, written
from §4.2 of the spec, to be compared with `buildPermutationTable`. -/

/-- Spec wording: "draw `r = i + floor(random() * (256 - i))`". -/
def specR (random : Nat → ℚ) (i : Nat) : Nat :=
  i + (⌊random i * (256 - (i : ℚ))⌋).toNat

/-- Spec wording: "swap entries i and r". -/
def specSwap (i r : Nat) (p : Nat → Nat) : Nat → Nat :=
  fun j => p (Equiv.swap i r j)

/-- Spec wording: identity initialization then the first `n` of the 255
swap iterations. -/
def permLoopSpec (random : Nat → ℚ) : Nat → (Nat → Nat)
  | 0 => fun i => if i < 256 then i else 0
  | n + 1 => specSwap n (specR random n) (permLoopSpec random n)

/-- Spec wording of §4.2: identity init, swaps for `i` from 0 to 254
inclusive, then entries 0–255 copied into 256–511 unchanged. -/
def permTableSpec (random : Nat → ℚ) : Nat → Nat :=
  fun idx =>
    if idx < 256 then permLoopSpec random 255 idx
    else if idx < 512 then permLoopSpec random 255 (idx - 256)
    else 0

theorem swapR_eq_specR (random : Nat → ℚ)
    (h : ∀ n, 0 ≤ random n ∧ random n < 1) (i : Nat) (hi : i < 255) :
    swapR random i = specR random i := by
  have hpos : (0 : ℚ) ≤ 256 - (i : ℚ) := by
    have : (i : ℚ) ≤ 254 := by exact_mod_cast Nat.lt_succ_iff.mp hi
    linarith
  have hq0 : 0 ≤ random i * (256 - (i : ℚ)) := mul_nonneg (h i).1 hpos
  have hfl0 : 0 ≤ ⌊random i * (256 - (i : ℚ))⌋ := Int.floor_nonneg.mpr hq0
  unfold swapR specR jsTrunc
  rw [if_pos hq0]
  omega

theorem permLoop_eq_spec (random : Nat → ℚ)
    (h : ∀ n, 0 ≤ random n ∧ random n < 1) :
    ∀ n, n ≤ 255 → permLoop random n = permLoopSpec random n := by
  intro n
  induction n with
  | zero => intro _; rfl
  | succ n ih =>
    intro hn
    have hn' : n < 255 := hn
    funext j
    rw [permLoop, swapStep_eq, ih hn'.le, swapR_eq_specR random h n hn']
    rfl

/-- C3: `buildPermutationTable` computes exactly the algorithm of §4.2 —
identity init on entries 0–255, 255 iterations (`i` from 0 to 254) of
"draw `r = i + floor(random() * (256 - i))` and swap entries `i` and `r`",
then an unchanged copy into entries 256–511 — for any draw function with
outputs in `[0, 1)`. -/
theorem claim3_perm_table_algorithm (random : Nat → ℚ)
    (h : ∀ n, 0 ≤ random n ∧ random n < 1) (idx : Nat) :
    buildPermutationTable random idx = permTableSpec random idx := by
  unfold buildPermutationTable permTableSpec
  rw [permLoop_eq_spec random h 255 le_rfl]

theorem claim3_perm_table_algorithm_w :
    buildPermutationTable (fun _ => 0) 0 = permTableSpec (fun _ => 0) 0 :=
  claim3_perm_table_algorithm _ (fun _ => ⟨le_rfl, by norm_num⟩) 0

/-! ## The `createRandom` wrapper -/

/-- A JavaScript number that may be NaN (`none`); an absent argument
(`undefined`) becomes NaN as soon as arithmetic touches it. -/
def jsAdd : Option ℚ → Option ℚ → Option ℚ
  | some a, some b => some (a + b)
  | _, _ => none

def jsSub : Option ℚ → Option ℚ → Option ℚ
  | some a, some b => some (a - b)
  | _, _ => none

def jsMul : Option ℚ → Option ℚ → Option ℚ
  | some a, some b => some (a * b)
  | _, _ => none

/-- The body of the function returned by `createRandom`, applied to its
`arguments` list with the underlying draw producing `r`:
`if (arguments.length == 0) return r(); return r() * (b - a) + a;`
(`a`, `b` are the first two arguments, `undefined` when absent). -/
def createRandomApply (r : ℚ) (args : List (Option ℚ)) : Option ℚ :=
  if args.length = 0 then some r
  else jsAdd (jsMul (some r) (jsSub (args.getD 1 none) (args.getD 0 none)))
    (args.getD 0 none)

/-- C9: the generator returned by `createRandom` has exactly two call
modes selected by argument count — zero arguments returns the raw draw,
and two arguments `(a, b)` returns `a + draw * (b - a)`; every other
argument count takes the same second branch on the first two arguments,
so no distinct third behaviour exists. -/
theorem claim9_call_modes (r : ℚ) (args : List (Option ℚ)) :
    (args = [] → createRandomApply r args = some r) ∧
    (∀ a b : ℚ, args = [some a, some b] →
      createRandomApply r args = some (a + r * (b - a))) ∧
    (args ≠ [] → createRandomApply r args =
      jsAdd (jsMul (some r) (jsSub (args.getD 1 none) (args.getD 0 none)))
        (args.getD 0 none)) := by
  refine ⟨fun h => by simp [createRandomApply, h], fun a b h => ?_, fun h => ?_⟩
  · subst h
    simp [createRandomApply, jsAdd, jsMul, jsSub]
    ring
  · rw [createRandomApply, if_neg (by simpa using h)]

theorem claim9_call_modes_w :
    createRandomApply (1/2) [] = some (1/2) ∧
    createRandomApply (1/2) [some 3, some 5] = some (3 + 1/2 * (5 - 3)) ∧
    createRandomApply (1/2) [some 7] = none := by
  refine ⟨(claim9_call_modes (1/2) []).1 rfl,
    (claim9_call_modes (1/2) [some 3, some 5]).2.1 3 5 rfl, ?_⟩
  have h := (claim9_call_modes (1/2) [some 7]).2.2 (by decide)
  simpa [jsAdd, jsMul, jsSub] using h

/-! ## 3D simplex noise (`createNoise3D`) -/

/-- Skew factor for 3D. -/
def F3 : ℚ := 1 / 3

/-- Unskew factor for 3D. -/
def G3 : ℚ := 1 / 6

/-- `fastFloor(x) = Math.floor(x) | 0`. -/
def fastFloor (x : ℚ) : ℤ := ⌊x⌋

/-- The gradient table `grad3`, 12 direction triples flattened. -/
def grad3 : List ℚ :=
  [1, 1, 0, -1, 1, 0, 1, -1, 0, -1, -1, 0, 1, 0, 1, -1, 0, 1, 1, 0, -1, -1, 0,
   -1, 0, 1, 1, 0, -1, 1, 0, 1, -1, 0, -1, -1]

/-- `permGrad3x[v] = grad3[(perm[v] % 12) * 3]`. -/
def permGrad3x (perm : Nat → Nat) (v : Nat) : ℚ :=
  grad3.getD ((perm v % 12) * 3) 0

/-- `permGrad3y[v] = grad3[(perm[v] % 12) * 3 + 1]`. -/
def permGrad3y (perm : Nat → Nat) (v : Nat) : ℚ :=
  grad3.getD ((perm v % 12) * 3 + 1) 0

/-- `permGrad3z[v] = grad3[(perm[v] % 12) * 3 + 2]`. -/
def permGrad3z (perm : Nat → Nat) (v : Nat) : ℚ :=
  grad3.getD ((perm v % 12) * 3 + 2) 0

/-- The simplex cell `(i, j, k)` of the input point:
`s = (x + y + z) * F3; i = fastFloor(x + s)` etc. -/
def skewCell (x y z : ℚ) : ℤ × ℤ × ℤ :=
  let s := (x + y + z) * F3
  (fastFloor (x + s), fastFloor (y + s), fastFloor (z + s))

/-- The in-cell offsets `(x0, y0, z0)`:
`t = (i + j + k) * G3; x0 = x - (i - t)` etc. -/
def cellOffset (x y z : ℚ) : ℚ × ℚ × ℚ :=
  let c := skewCell x y z
  let t := ((c.1 + c.2.1 + c.2.2 : ℤ) : ℚ) * G3
  (x - ((c.1 : ℚ) - t), y - ((c.2.1 : ℚ) - t), z - ((c.2.2 : ℚ) - t))

/-- The second and third simplex corner offsets
`((i1, j1, k1), (i2, j2, k2))` selected by the rank ordering of the
in-cell offsets, with the source's branch structure. -/
def simplexCorners (x0 y0 z0 : ℚ) : (Nat × Nat × Nat) × (Nat × Nat × Nat) :=
  if x0 ≥ y0 then
    if y0 ≥ z0 then ((1, 0, 0), (1, 1, 0))
    else if x0 ≥ z0 then ((1, 0, 0), (1, 0, 1))
    else ((0, 0, 1), (1, 0, 1))
  else
    if y0 < z0 then ((0, 0, 1), (0, 1, 1))
    else if x0 < z0 then ((0, 1, 0), (0, 1, 1))
    else ((0, 1, 0), (1, 1, 0))

/-- `i & 255` on a cell coordinate (an int32): the low 8 bits,
i.e. the nonnegative residue mod 256. -/
def hashIndex (i : ℤ) : Nat := (i % 256).toNat

/-- The four inner permutation-table indices of `noise3D`:
`jj + perm[kk]`, `jj + j1 + perm[kk + k1]`, `jj + j2 + perm[kk + k2]`,
`jj + 1 + perm[kk + 1]`. -/
def noiseInner (perm : Nat → Nat) (x y z : ℚ) : Nat × Nat × Nat × Nat :=
  let c := skewCell x y z
  let off := cellOffset x y z
  let sc := simplexCorners off.1 off.2.1 off.2.2
  let jj := hashIndex c.2.1
  let kk := hashIndex c.2.2
  (jj + perm kk,
   jj + sc.1.2.1 + perm (kk + sc.1.2.2),
   jj + sc.2.2.1 + perm (kk + sc.2.2.2),
   jj + 1 + perm (kk + 1))

/-- The four gradient indices of `noise3D`:
`gi0 = ii + perm[jj + perm[kk]]`, `gi1 = ii + i1 + perm[jj + j1 + perm[kk + k1]]`,
`gi2 = ii + i2 + perm[jj + j2 + perm[kk + k2]]`,
`gi3 = ii + 1 + perm[jj + 1 + perm[kk + 1]]`. -/
def noiseGI (perm : Nat → Nat) (x y z : ℚ) : Nat × Nat × Nat × Nat :=
  let c := skewCell x y z
  let off := cellOffset x y z
  let sc := simplexCorners off.1 off.2.1 off.2.2
  let ii := hashIndex c.1
  let inner := noiseInner perm x y z
  (ii + perm inner.1,
   ii + sc.1.1 + perm inner.2.1,
   ii + sc.2.1 + perm inner.2.2.1,
   ii + 1 + perm inner.2.2.2)

/-- One corner's contribution, the source's guarded form:
`t = 0.6 - dx*dx - dy*dy - dz*dz; if (t < 0) 0 else (t *= t; t * t * dot)`. -/
def cornerContrib (perm : Nat → Nat) (gi : Nat) (dx dy dz : ℚ) : ℚ :=
  let t := 3 / 5 - dx * dx - dy * dy - dz * dz
  if t < 0 then 0
  else
    let t2 := t * t
    t2 * t2 * (permGrad3x perm gi * dx + permGrad3y perm gi * dy +
      permGrad3z perm gi * dz)

/-- `noise3D(x, y, z)`: skew, corner selection, the four corner offsets
with cumulative `G3` corrections, the guarded corner contributions, and
the final `32.0 * (n0 + n1 + n2 + n3)`. -/
def noise3D (perm : Nat → Nat) (x y z : ℚ) : ℚ :=
  let off := cellOffset x y z
  let x0 := off.1
  let y0 := off.2.1
  let z0 := off.2.2
  let sc := simplexCorners x0 y0 z0
  let x1 := x0 - (sc.1.1 : ℚ) + G3
  let y1 := y0 - (sc.1.2.1 : ℚ) + G3
  let z1 := z0 - (sc.1.2.2 : ℚ) + G3
  let x2 := x0 - (sc.2.1 : ℚ) + 2 * G3
  let y2 := y0 - (sc.2.2.1 : ℚ) + 2 * G3
  let z2 := z0 - (sc.2.2.2 : ℚ) + 2 * G3
  let x3 := x0 - 1 + 3 * G3
  let y3 := y0 - 1 + 3 * G3
  let z3 := z0 - 1 + 3 * G3
  let g := noiseGI perm x y z
  32 * (cornerContrib perm g.1 x0 y0 z0 + cornerContrib perm g.2.1 x1 y1 z1 +
    cornerContrib perm g.2.2.1 x2 y2 z2 + cornerContrib perm g.2.2.2 x3 y3 z3)

/-- C4: the simplex corner-offset selection follows exactly the claimed
branch semantics on the in-cell offsets, including the `>=`/`<`
asymmetry on ties. -/
theorem claim4_simplex_corner_branches (x0 y0 z0 : ℚ) :
    (x0 ≥ y0 → y0 ≥ z0 →
      simplexCorners x0 y0 z0 = ((1, 0, 0), (1, 1, 0))) ∧
    (x0 ≥ y0 → ¬ y0 ≥ z0 → x0 ≥ z0 →
      simplexCorners x0 y0 z0 = ((1, 0, 0), (1, 0, 1))) ∧
    (x0 ≥ y0 → ¬ y0 ≥ z0 → ¬ x0 ≥ z0 →
      simplexCorners x0 y0 z0 = ((0, 0, 1), (1, 0, 1))) ∧
    (x0 < y0 → y0 < z0 →
      simplexCorners x0 y0 z0 = ((0, 0, 1), (0, 1, 1))) ∧
    (x0 < y0 → ¬ y0 < z0 → x0 < z0 →
      simplexCorners x0 y0 z0 = ((0, 1, 0), (0, 1, 1))) ∧
    (x0 < y0 → ¬ y0 < z0 → ¬ x0 < z0 →
      simplexCorners x0 y0 z0 = ((0, 1, 0), (1, 1, 0))) := by
  refine ⟨fun h1 h2 => ?_, fun h1 h2 h3 => ?_, fun h1 h2 h3 => ?_,
    fun h1 h2 => ?_, fun h1 h2 h3 => ?_, fun h1 h2 h3 => ?_⟩
  · simp [simplexCorners, h1, h2]
  · simp [simplexCorners, h1, h2, h3]
  · simp [simplexCorners, h1, h2, h3]
  · simp [simplexCorners, not_le.mpr h1, h2]
  · simp [simplexCorners, not_le.mpr h1, h2, h3]
  · simp [simplexCorners, not_le.mpr h1, h2, h3]

theorem claim4_simplex_corner_branches_w :
    simplexCorners 3 2 1 = ((1, 0, 0), (1, 1, 0)) :=
  (claim4_simplex_corner_branches 3 2 1).1 (by norm_num) (by norm_num)

/-- Spec wording of a corner contribution: falloff
`t = 0.6 - (dx² + dy² + dz²)`; zero when `t < 0`, else `t⁴` times the dot
product of the looked-up gradient with the corner offset. -/
def cornerContribSpec (perm : Nat → Nat) (gi : Nat) (dx dy dz : ℚ) : ℚ :=
  let t := 3 / 5 - (dx ^ 2 + dy ^ 2 + dz ^ 2)
  if t < 0 then 0
  else t ^ 4 * (permGrad3x perm gi * dx + permGrad3y perm gi * dy +
    permGrad3z perm gi * dz)

/-- Spec wording of the noise evaluation: the value returned is 32.0 times
the sum of the four corner contributions of `cornerContribSpec`. -/
def noise3Dspec (perm : Nat → Nat) (x y z : ℚ) : ℚ :=
  let off := cellOffset x y z
  let x0 := off.1
  let y0 := off.2.1
  let z0 := off.2.2
  let sc := simplexCorners x0 y0 z0
  let x1 := x0 - (sc.1.1 : ℚ) + G3
  let y1 := y0 - (sc.1.2.1 : ℚ) + G3
  let z1 := z0 - (sc.1.2.2 : ℚ) + G3
  let x2 := x0 - (sc.2.1 : ℚ) + 2 * G3
  let y2 := y0 - (sc.2.2.1 : ℚ) + 2 * G3
  let z2 := z0 - (sc.2.2.2 : ℚ) + 2 * G3
  let x3 := x0 - 1 + 3 * G3
  let y3 := y0 - 1 + 3 * G3
  let z3 := z0 - 1 + 3 * G3
  let g := noiseGI perm x y z
  32 * (cornerContribSpec perm g.1 x0 y0 z0 +
    cornerContribSpec perm g.2.1 x1 y1 z1 +
    cornerContribSpec perm g.2.2.1 x2 y2 z2 +
    cornerContribSpec perm g.2.2.2 x3 y3 z3)

theorem cornerContrib_eq_spec (perm : Nat → Nat) (gi : Nat) (dx dy dz : ℚ) :
    cornerContrib perm gi dx dy dz = cornerContribSpec perm gi dx dy dz := by
  simp only [cornerContrib, cornerContribSpec]
  have ht : 3 / 5 - dx * dx - dy * dy - dz * dz =
      3 / 5 - (dx ^ 2 + dy ^ 2 + dz ^ 2) := by ring
  rw [ht]
  split_ifs with h
  · rfl
  · ring

/-- C5: for every input point and each of the four simplex corners,
`noise3D` computes the falloff `t = 0.6 - (dx² + dy² + dz²)`, contributes
zero when `t < 0` and `t⁴` times the gradient dot product otherwise, and
returns 32.0 times the sum of the four contributions. -/
theorem claim5_corner_falloff (perm : Nat → Nat) (x y z : ℚ) :
    noise3D perm x y z = noise3Dspec perm x y z := by
  simp only [noise3D, noise3Dspec, cornerContrib_eq_spec]

theorem hashIndex_lt (i : ℤ) : hashIndex i < 256 := by
  unfold hashIndex
  have h1 := Int.emod_nonneg i (by norm_num : (256 : ℤ) ≠ 0)
  have h2 := Int.emod_lt_of_pos i (by norm_num : (0 : ℤ) < 256)
  omega

theorem simplexCorners_le_one (x0 y0 z0 : ℚ) :
    (simplexCorners x0 y0 z0).1.1 ≤ 1 ∧ (simplexCorners x0 y0 z0).1.2.1 ≤ 1 ∧
    (simplexCorners x0 y0 z0).1.2.2 ≤ 1 ∧ (simplexCorners x0 y0 z0).2.1 ≤ 1 ∧
    (simplexCorners x0 y0 z0).2.2.1 ≤ 1 ∧
    (simplexCorners x0 y0 z0).2.2.2 ≤ 1 := by
  unfold simplexCorners
  split_ifs <;> simp

/-- C10: assuming the permutation-table invariant, every table and
gradient-table index computed by `noise3D` — the four inner indices
`jj + perm[kk]`, `jj + j1 + perm[kk + k1]`, `jj + j2 + perm[kk + k2]`,
`jj + 1 + perm[kk + 1]` and the four gradient indices `gi0`–`gi3` — lies
below 512. -/
theorem claim10_noise_indices_in_bounds (p : Nat → Nat)
    (h : permInvariant p) (x y z : ℚ) :
    (noiseInner p x y z).1 < 512 ∧ (noiseInner p x y z).2.1 < 512 ∧
    (noiseInner p x y z).2.2.1 < 512 ∧ (noiseInner p x y z).2.2.2 < 512 ∧
    (noiseGI p x y z).1 < 512 ∧ (noiseGI p x y z).2.1 < 512 ∧
    (noiseGI p x y z).2.2.1 < 512 ∧ (noiseGI p x y z).2.2.2 < 512 := by
  have hlt : ∀ n, n < 512 → p n < 256 := by
    intro n hn
    rcases lt_or_ge n 256 with h1 | h1
    · exact h.1.1 n h1
    · rw [h.2 n h1 hn]
      exact h.1.1 _ (by omega)
  obtain ⟨hc1, hc2, hc3, hc4, hc5, hc6⟩ := simplexCorners_le_one
    (cellOffset x y z).1 (cellOffset x y z).2.1 (cellOffset x y z).2.2
  have hii := hashIndex_lt (skewCell x y z).1
  have hjj := hashIndex_lt (skewCell x y z).2.1
  have hkk := hashIndex_lt (skewCell x y z).2.2
  simp only [noiseInner, noiseGI]
  have hp0 := hlt (hashIndex (skewCell x y z).2.2) (by omega)
  have hp1 := hlt (hashIndex (skewCell x y z).2.2 +
    (simplexCorners (cellOffset x y z).1 (cellOffset x y z).2.1
      (cellOffset x y z).2.2).1.2.2) (by omega)
  have hp2 := hlt (hashIndex (skewCell x y z).2.2 +
    (simplexCorners (cellOffset x y z).1 (cellOffset x y z).2.1
      (cellOffset x y z).2.2).2.2.2) (by omega)
  have hp3 := hlt (hashIndex (skewCell x y z).2.2 + 1) (by omega)
  have hq0 := hlt (hashIndex (skewCell x y z).2.1 +
    p (hashIndex (skewCell x y z).2.2)) (by omega)
  have hq1 := hlt (hashIndex (skewCell x y z).2.1 +
    (simplexCorners (cellOffset x y z).1 (cellOffset x y z).2.1
      (cellOffset x y z).2.2).1.2.1 +
    p (hashIndex (skewCell x y z).2.2 +
      (simplexCorners (cellOffset x y z).1 (cellOffset x y z).2.1
        (cellOffset x y z).2.2).1.2.2)) (by omega)
  have hq2 := hlt (hashIndex (skewCell x y z).2.1 +
    (simplexCorners (cellOffset x y z).1 (cellOffset x y z).2.1
      (cellOffset x y z).2.2).2.2.1 +
    p (hashIndex (skewCell x y z).2.2 +
      (simplexCorners (cellOffset x y z).1 (cellOffset x y z).2.1
        (cellOffset x y z).2.2).2.2.2)) (by omega)
  have hq3 := hlt (hashIndex (skewCell x y z).2.1 + 1 +
    p (hashIndex (skewCell x y z).2.2 + 1)) (by omega)
  refine ⟨by omega, by omega, by omega, by omega, by omega, by omega,
    by omega, by omega⟩

theorem claim10_noise_indices_in_bounds_w :
    (noiseInner (fun n => n % 256) 0 0 0).1 < 512 ∧
    (noiseInner (fun n => n % 256) 0 0 0).2.1 < 512 ∧
    (noiseInner (fun n => n % 256) 0 0 0).2.2.1 < 512 ∧
    (noiseInner (fun n => n % 256) 0 0 0).2.2.2 < 512 ∧
    (noiseGI (fun n => n % 256) 0 0 0).1 < 512 ∧
    (noiseGI (fun n => n % 256) 0 0 0).2.1 < 512 ∧
    (noiseGI (fun n => n % 256) 0 0 0).2.2.1 < 512 ∧
    (noiseGI (fun n => n % 256) 0 0 0).2.2.2 < 512 :=
  claim10_noise_indices_in_bounds (fun n => n % 256)
    ⟨⟨fun i _ => Nat.mod_lt _ (by norm_num),
      fun i j hi hj hij => by
        have h : i % 256 = j % 256 := hij
        omega,
      fun v hv => ⟨v, hv, show v % 256 = v from Nat.mod_eq_of_lt hv⟩⟩,
     fun i h1 h2 => show i % 256 = (i - 256) % 256 by omega⟩ 0 0 0

/-! ## Curl noise (`curlNoise3`)

The curl computation uses `Math.hypot`, i.e. square roots, so it is
embedded over `ℝ`. -/

/-- `Math.hypot(x, y, z)`: the Euclidean norm of a 3-vector. -/
noncomputable def hypot3 (v : ℝ × ℝ × ℝ) : ℝ :=
  Real.sqrt (v.1 ^ 2 + v.2.1 ^ 2 + v.2.2 ^ 2)

/-- JavaScript `a || b` for a numeric `a` that is not NaN: `b` when `a`
is 0 (falsy), otherwise `a`. -/
noncomputable def jsOrDefault (a b : ℝ) : ℝ := if a = 0 then b else a

/-- The raw curl vector `(cx, cy, cz)` of `curlNoise3` before the
normalize/scale steps: six field samples offset by `±eps` along each
axis, central differences with `inv2e = 1 / (2 * eps)`, and
`curl(F) = (dFz/dy - dFy/dz, dFx/dz - dFz/dx, dFy/dx - dFx/dy)`. -/
noncomputable def curlRaw (p : ℝ × ℝ × ℝ) (noiseVec3 : ℝ × ℝ × ℝ → ℝ × ℝ × ℝ)
    (eps : ℝ) : ℝ × ℝ × ℝ :=
  let x := p.1
  let y := p.2.1
  let z := p.2.2
  let fyp := noiseVec3 (x, y + eps, z)
  let fym := noiseVec3 (x, y - eps, z)
  let fzp := noiseVec3 (x, y, z + eps)
  let fzm := noiseVec3 (x, y, z - eps)
  let fxp := noiseVec3 (x + eps, y, z)
  let fxm := noiseVec3 (x - eps, y, z)
  let inv2e := 1 / (2 * eps)
  let dFz_dy := (fyp.2.2 - fym.2.2) * inv2e
  let dFy_dz := (fzp.2.1 - fzm.2.1) * inv2e
  let dFx_dz := (fzp.1 - fzm.1) * inv2e
  let dFz_dx := (fxp.2.2 - fxm.2.2) * inv2e
  let dFy_dx := (fxp.2.1 - fxm.2.1) * inv2e
  let dFx_dy := (fyp.1 - fym.1) * inv2e
  (dFz_dy - dFy_dz, dFx_dz - dFz_dx, dFy_dx - dFx_dy)

/-- `curlNoise3`: raw curl, then (when `normalize` is set)
`len = Math.hypot(cx, cy, cz) || 1` and division of each component by
`len`, then scaling of each component by `outScale`. -/
noncomputable def curlNoise3 (p : ℝ × ℝ × ℝ)
    (noiseVec3 : ℝ × ℝ × ℝ → ℝ × ℝ × ℝ) (eps outScale : ℝ)
    (normalize : Bool) : ℝ × ℝ × ℝ :=
  let c := curlRaw p noiseVec3 eps
  let c2 :=
    if normalize then
      let len := jsOrDefault (hypot3 c) 1
      (c.1 / len, c.2.1 / len, c.2.2 / len)
    else c
  (c2.1 * outScale, c2.2.1 * outScale, c2.2.2 * outScale)

/-- The rotation field `F(x, y, z) = (-y, x, 0)`, whose analytic curl is
the constant `(0, 0, 2)`. -/
def rotField3 (q : ℝ × ℝ × ℝ) : ℝ × ℝ × ℝ := (-q.2.1, q.1, 0)

theorem sum_sq_pos_of_ne (v : ℝ × ℝ × ℝ) (h : v ≠ (0, 0, 0)) :
    0 < v.1 ^ 2 + v.2.1 ^ 2 + v.2.2 ^ 2 := by
  have hor : v.1 ≠ 0 ∨ v.2.1 ≠ 0 ∨ v.2.2 ≠ 0 := by
    by_contra hall
    push_neg at hall
    exact h (Prod.ext hall.1 (Prod.ext hall.2.1 hall.2.2))
  rcases hor with h1 | h1 | h1 <;>
  · have := pow_pos (abs_pos.mpr h1) 2
    rw [sq_abs] at this
    nlinarith [sq_nonneg v.1, sq_nonneg v.2.1, sq_nonneg v.2.2]

theorem hypot3_scale (c1 c2 c3 s L : ℝ) (hL : 0 < L)
    (hdef : L = Real.sqrt (c1 ^ 2 + c2 ^ 2 + c3 ^ 2)) :
    hypot3 (c1 / L * s, c2 / L * s, c3 / L * s) = |s| := by
  show Real.sqrt ((c1 / L * s) ^ 2 + (c2 / L * s) ^ 2 + (c3 / L * s) ^ 2) = |s|
  have e1 : (c1 / L * s) ^ 2 + (c2 / L * s) ^ 2 + (c3 / L * s) ^ 2 =
      (s / L) ^ 2 * (c1 ^ 2 + c2 ^ 2 + c3 ^ 2) := by ring
  rw [e1, Real.sqrt_mul (sq_nonneg _), Real.sqrt_sq_eq_abs, abs_div,
    abs_of_pos hL, ← hdef]
  exact div_mul_cancel₀ _ hL.ne'

/-- C7: with `normalize = true`, `curlNoise3` divides the raw curl by its
Euclidean norm with 1 substituted for a zero norm; hence the result is
the zero vector when the raw curl is exactly zero, and otherwise a
unit-length vector scaled by `outScale` (its norm is `|outScale|`). -/
theorem claim7_normalize_guard (p : ℝ × ℝ × ℝ)
    (F : ℝ × ℝ × ℝ → ℝ × ℝ × ℝ) (eps outScale : ℝ) :
    (curlNoise3 p F eps outScale true =
      ((curlRaw p F eps).1 /
          (if hypot3 (curlRaw p F eps) = 0 then 1
           else hypot3 (curlRaw p F eps)) * outScale,
        (curlRaw p F eps).2.1 /
          (if hypot3 (curlRaw p F eps) = 0 then 1
           else hypot3 (curlRaw p F eps)) * outScale,
        (curlRaw p F eps).2.2 /
          (if hypot3 (curlRaw p F eps) = 0 then 1
           else hypot3 (curlRaw p F eps)) * outScale)) ∧
    (curlRaw p F eps = (0, 0, 0) →
      curlNoise3 p F eps outScale true = (0, 0, 0)) ∧
    (curlRaw p F eps ≠ (0, 0, 0) →
      hypot3 (curlNoise3 p F eps outScale true) = |outScale|) := by
  refine ⟨by simp only [curlNoise3, jsOrDefault, if_true], fun h => ?_, fun h => ?_⟩
  · simp only [curlNoise3, jsOrDefault, if_true, h, hypot3]
    norm_num
  · have hS := sum_sq_pos_of_ne _ h
    have hL : 0 < hypot3 (curlRaw p F eps) := Real.sqrt_pos.mpr hS
    have hres : curlNoise3 p F eps outScale true =
        ((curlRaw p F eps).1 / hypot3 (curlRaw p F eps) * outScale,
         (curlRaw p F eps).2.1 / hypot3 (curlRaw p F eps) * outScale,
         (curlRaw p F eps).2.2 / hypot3 (curlRaw p F eps) * outScale) := by
      simp only [curlNoise3, jsOrDefault, if_true]
      rw [if_neg hL.ne']
    rw [hres]
    exact hypot3_scale _ _ _ _ _ hL rfl

theorem claim7_normalize_guard_w :
    curlNoise3 ((0 : ℝ), (0 : ℝ), (0 : ℝ)) (fun _ => (0, 0, 0)) 1 5 true =
      (0, 0, 0) ∧
    hypot3 (curlNoise3 ((0 : ℝ), (0 : ℝ), (0 : ℝ)) rotField3 1 5 true) =
      |(5 : ℝ)| := by
  constructor
  · refine (claim7_normalize_guard _ _ 1 5).2.1 ?_
    simp only [curlRaw]
    norm_num
  · refine (claim7_normalize_guard _ _ 1 5).2.2 ?_
    have hc : curlRaw ((0 : ℝ), (0 : ℝ), (0 : ℝ)) rotField3 1 = (0, 0, 2) := by
      simp only [curlRaw, rotField3]
      norm_num
    rw [hc]
    simp [Prod.ext_iff]

/-- C8: for every point, every `eps ≠ 0` and `normalize = false`,
`curlNoise3` on the rotation field `F(x, y, z) = (-y, x, 0)` returns
`(0, 0, 2)` scaled by `outScale`: the central differences are exact on
this linear field, independently of `eps`. -/
theorem claim8_rotation_field (p : ℝ × ℝ × ℝ) (eps outScale : ℝ)
    (heps : eps ≠ 0) :
    curlNoise3 p rotField3 eps outScale false = (0, 0, 2 * outScale) := by
  have h2e : (2 : ℝ) * eps ≠ 0 := mul_ne_zero two_ne_zero heps
  simp only [curlNoise3, curlRaw, rotField3, Bool.false_eq_true, if_false]
  refine Prod.ext ?_ (Prod.ext ?_ ?_)
  · simp only []
    ring
  · simp only []
    ring
  · simp only []
    field_simp
    ring

theorem claim8_rotation_field_w :
    curlNoise3 ((0 : ℝ), (0 : ℝ), (0 : ℝ)) rotField3 1 3 false =
      (0, 0, 2 * 3) :=
  claim8_rotation_field ((0 : ℝ), (0 : ℝ), (0 : ℝ)) 1 3 (by norm_num)

end Ascanvas2d
